import Mathlib

/-!
Shallow embedding of `Zooniverse/process_nests.py` (EvergladesTools).

The nest-aggregation algorithm consumes a table of per-detection records
(site, year, date, target identifier, label, score, bounding box, bird id)
and produces one row per retained nest.  Dates are modelled as natural
numbers (ordinal encoding: the order of the naturals is the order of the
calendar dates), scores and coordinates as rationals, fallible code as
`Except String`.

Pandas operations are embedded as follows:
* `Series.sort_values`           → insertion sort (`sortNat`);
* `Series.unique`                → first-encounter deduplication (`uniqueList`),
                                   as pandas `unique` preserves encounter order;
* `{val: key for key, val in sorted.items()}` followed by `.map`
                                 → `rankOf` (position of a value in the sorted
                                   list; the survey-date rows produced by
                                   `process_nests` are `unique()` lists, so
                                   first-position and dict (last-write) lookup
                                   agree);
* `Series.diff`                  → `diffSeq` (leading `NaN` as `none`,
                                   `NaN` propagation through subtraction);
* Python `max` over an empty sequence → `Except.error`;
* `groupby(...).agg` over the per-target label groups → `summedScores`.
  pandas sorts group keys; within one target the (Site, Year, target_ind)
  components are constant, so only the label order can differ from our
  first-encounter order, and that affects only which of several equal-sum
  labels is reported (the tie-break that the spec leaves arbitrary).
-/

/-- Python `max(list)` over naturals when the list is known non-empty,
`0` for the empty list (the code returns `0` explicitly in that case). -/
def foldMax (l : List Nat) : Nat := l.foldr Nat.max 0

/-- Insert into a sorted list (helper for `sortNat`). -/
def insertSorted (x : Nat) : List Nat → List Nat
  | [] => [x]
  | y :: ys => if x ≤ y then x :: y :: ys else y :: insertSorted x ys

/-- Ascending sort, embedding `pd.Series(...).sort_values()`. -/
def sortNat : List Nat → List Nat
  | [] => []
  | x :: xs => insertSorted x (sortNat xs)

/-- First-encounter deduplication, embedding pandas `unique()`. -/
def uniqueList {α : Type} [DecidableEq α] (l : List α) : List α :=
  l.foldl (fun acc x => if x ∈ acc then acc else acc ++ [x]) []

/-- Position of `d` in `cal`, embedding the `sorted_dates_dict` lookup
(`{val: key for key, val in sorted_dates.items()}` followed by `.map`);
a date absent from the calendar maps to `NaN`, i.e. `none`. -/
def rankOf (cal : List Nat) (d : Nat) : Option Nat :=
  match cal with
  | [] => none
  | x :: xs => if x = d then some 0 else (rankOf xs d).map (· + 1)

/-- Tail of `Series.diff`: successive differences, `NaN` (`none`) when either
operand is `NaN`. -/
def diffTail : Option Nat → List (Option Nat) → List (Option Int)
  | _, [] => []
  | p, y :: ys =>
    (match p, y with
     | some a, some b => some ((b : Int) - (a : Int))
     | _, _ => none) :: diffTail y ys

/-- `Series.diff`: first entry `NaN` (`none`), then successive differences. -/
def diffSeq : List (Option Nat) → List (Option Int)
  | [] => []
  | x :: xs => none :: diffTail x xs

/-- The run-length scan of `count_max_consec_detects`
(`for i in range(1, len(sorted_dates_combined_diff)): ...`).
`prev` is `diff[i-1]`, the head of the list is `diff[i]`, `consec` is the
running counter and `acc` the collected run lengths.  The four branches
mirror the four `if`/`elif` cases of the source (including the harmless
`consec_detects == 0` comparison statement, embedded as keeping `consec`
unchanged), and the final branch embeds the defensive
`assert False, "Oops, I shouldn't be here"`. -/
def goScan : Option Int → List (Option Int) → Nat → List Nat → Except String (List Nat)
  | _, [], _, acc => .ok acc
  | prev, d :: rest, consec, acc =>
    if d = some 1 ∧ ¬prev = some 1 then
      -- New start to consecutive detection set
      if rest = [] then .ok (acc ++ [1]) else goScan d rest 1 acc
    else if d = some 1 ∧ prev = some 1 then
      -- Increment existing consecutive detection set
      if rest = [] then .ok (acc ++ [consec + 1]) else goScan d rest (consec + 1) acc
    else if ¬d = some 1 ∧ prev = some 1 then
      -- Store completed consecutive detection set and reset
      goScan d rest 0 (acc ++ [consec])
    else if ¬d = some 1 ∧ ¬prev = some 1 then
      goScan d rest consec acc
    else
      .error "Oops, I should not be here"

/-- Embedding of `count_max_consec_detects(nest_data, date_data)`.
`nestDates` is the `Date` column of `nest_data`; `dateRows` is the `Date`
column of `date_data` (one entry per row of the survey-date table).  The
initial `assert date_data.shape[0] == 1` is the `.error` branch. -/
def countMaxConsecDetects (nestDates : List Nat) (dateRows : List (List Nat)) :
    Except String Nat :=
  match dateRows with
  | [row] =>
    let sorted_dates := sortNat row
    let sorted_nest_dates := sortNat nestDates
    let mapped := sorted_nest_dates.map (fun d => rankOf sorted_dates d)
    match diffSeq mapped with
    | [] => .ok 0
    | d0 :: rest =>
      match goScan d0 rest 0 [] with
      | .ok all => .ok (foldMax all)
      | .error e => .error e
  | _ => .error "date_data should be a Pandas DataFrame with one row"

/-- One detection record (one row of the input table of `process_nests`). -/
structure Detection where
  site : String
  year : String
  date : Nat
  target_ind : Nat
  label : String
  score : ℚ
  bird_id : String
  match_xmin : ℚ
  match_ymin : ℚ
  match_xmax : ℚ
  match_ymax : ℚ
deriving DecidableEq, Repr

/-- One output row of the processed-nests table. -/
structure NestRow where
  nest_id : Nat
  site : String
  year : String
  xmean : ℚ
  ymean : ℚ
  first_obs : Nat
  last_obs : Nat
  num_obs : Nat
  species : String
  sum_top1 : ℚ
  num_top1 : Nat
  bird_match : String
deriving DecidableEq, Repr

/-- The written output: declared column names plus data rows. -/
structure NestOutput where
  columns : List String
  rows : List NestRow
deriving DecidableEq, Repr

/-- Mean of a list of rationals (pandas `mean` = sum / count). -/
def meanOfList (l : List ℚ) : ℚ := l.sum / l.length

/-- `nests_data.groupby(['Site', 'Year']).agg({'Date': lambda x: x.unique().tolist()})`:
one row per distinct (Site, Year), carrying the unique date list. -/
def surveyDateRows (dets : List Detection) : List (List Nat) :=
  (uniqueList (dets.map (fun d => (d.site, d.year)))).map
    (fun k => uniqueList ((dets.filter (fun d => (d.site, d.year) = k)).map (·.date)))

/-- `nests_data['target_ind'].unique()`. -/
def targetInds (dets : List Detection) : List Nat :=
  uniqueList (dets.map (·.target_ind))

/-- `nests_data[(nests_data['target_ind'] == target_ind) & (nests_data['score'] >= min_score)]`. -/
def filteredDetections (dets : List Detection) (min_score : ℚ) (t : Nat) :
    List Detection :=
  dets.filter (fun d => d.target_ind = t ∧ min_score ≤ d.score)

/-- `nest_data.groupby(['Site', 'Year', 'target_ind', 'label']).score.agg(['sum', 'count'])`
restricted to one target: one `(label, summed score, count)` triple per label. -/
def summedScores (l : List Detection) : List (String × ℚ × Nat) :=
  (uniqueList (l.map (·.label))).map
    (fun lab =>
      let rows := l.filter (fun d => d.label = lab)
      (lab, (rows.map (·.score)).sum, rows.length))

/-- Python `max(summed_scores['sum'])`: raises on an empty sequence. -/
def maxOfList (l : List ℚ) : Except String ℚ :=
  match l with
  | [] => .error "max() arg is an empty sequence"
  | x :: xs => .ok (xs.foldl max x)

/-- One iteration of the `for target_ind in target_inds` loop of `process_nests`:
`.ok (some row)` when the target is retained and aggregated, `.ok none` when it
is dropped by the retention rule, `.error` when the iteration raises.
The aggregation (`nest_info`, `top_score_data`) groups by
(Site, Year, target_ind); these keys are constant over the target's rows
(uniform Site/Year is the input contract), so the single group is the whole
filtered frame and row 0 of each aggregate is read off its head. -/
def processTarget (dets : List Detection) (min_score : ℚ)
    (min_detections min_consec_detects : Int) (t : Nat) :
    Except String (Option NestRow) :=
  let nest_data := filteredDetections dets min_score t
  match countMaxConsecDetects (nest_data.map (·.date)) (surveyDateRows dets) with
  | .error e => .error e
  | .ok num_consec_detects =>
    if min_detections ≤ (nest_data.length : Int) ∨
       min_consec_detects ≤ (num_consec_detects : Int) then
      let summed_scores := summedScores nest_data
      match maxOfList (summed_scores.map (fun g => g.2.1)) with
      | .error e => .error e
      | .ok m =>
        match summed_scores.find? (fun g => g.2.1 = m) with
        | none => .error "top label not found"
        | some top =>
          match nest_data with
          | [] => .error "max() arg is an empty sequence"
          | d0 :: drest =>
            .ok (some
              ⟨t,                                   -- nest_id = target_ind
               d0.site, d0.year,                    -- nest_info row 0
               (meanOfList (nest_data.map (·.match_xmin)) +
                meanOfList (nest_data.map (·.match_xmax))) / 2,  -- xmean
               (meanOfList (nest_data.map (·.match_ymin)) +
                meanOfList (nest_data.map (·.match_ymax))) / 2,  -- ymean
               (drest.map (·.date)).foldl Nat.min d0.date,       -- first_obs
               (drest.map (·.date)).foldl Nat.max d0.date,       -- last_obs
               nest_data.length,                                 -- num_obs
               top.1, top.2.1, top.2.2,             -- species, sum_top1, num_top1
               String.intercalate "," (nest_data.map (·.bird_id))⟩)
    else
      .ok none

/-- The `for target_ind in target_inds` loop: collects the retained rows,
propagating any raised error. -/
def processTargetsLoop (dets : List Detection) (min_score : ℚ)
    (min_detections min_consec_detects : Int) : List Nat → Except String (List NestRow)
  | [] => .ok []
  | t :: ts =>
    match processTarget dets min_score min_detections min_consec_detects t with
    | .error e => .error e
    | .ok none => processTargetsLoop dets min_score min_detections min_consec_detects ts
    | .ok (some row) =>
      match processTargetsLoop dets min_score min_detections min_consec_detects ts with
      | .error e => .error e
      | .ok rest => .ok (row :: rest)

/-- Column list of the non-empty output DataFrame. -/
def nestColumns : List String :=
  ["nest_id", "Site", "Year", "xmean", "ymean", "first_obs", "last_obs",
   "num_obs", "species", "sum_top1", "num_top1", "bird_match"]

/-- Property names of the fixed schema written when no nest is retained. -/
def schemaColumns : List String :=
  ["nest_id", "Site", "Year", "xmean", "ymean", "first_obs", "last_obs",
   "num_obs", "species", "sum_top1", "num_top1", "bird_match"]

/-- Embedding of `process_nests`: the written table (columns and rows), or the
raised error.  The `if nests:` branch writes the DataFrame, the `else` branch
writes the zero-row file with the fixed 12-property schema. -/
def processNests (dets : List Detection) (min_score : ℚ)
    (min_detections min_consec_detects : Int) : Except String NestOutput :=
  match processTargetsLoop dets min_score min_detections min_consec_detects
      (targetInds dets) with
  | .error e => .error e
  | .ok rows => if rows = [] then .ok ⟨schemaColumns, []⟩ else .ok ⟨nestColumns, rows⟩

/-- Reference state machine for the run scan: `mrGo p l cur best` walks `l`
counting unit steps (`y = p + 1`), `cur` being the length of the current run
of unit steps and `best` the best completed one. -/
def mrGo (p : Nat) : List Nat → Nat → Nat → Nat
  | [], cur, best => max cur best
  | y :: ys, cur, best =>
    if y = p + 1 then mrGo y ys (cur + 1) best else mrGo y ys 0 (max cur best)

/-- Longest run of unit steps in a list (0 for lists with fewer than 2 entries). -/
def mr : List Nat → Nat
  | [] => 0
  | x :: xs => mrGo x xs 0 0

/-- Helper for `maxBlock`: like `mrGo` but counting the elements of each
block of consecutive values rather than the steps. -/
def blockGo (p : Nat) : List Nat → Nat → Nat → Nat
  | [], cur, best => max cur best
  | y :: ys, cur, best =>
    if y = p + 1 then blockGo y ys (cur + 1) best else blockGo y ys 1 (max cur best)

/-- Number of dates in the longest block of consecutive positions: the
spec-side notion of consecutive-run size, counting the dates of the block
(so a lone element is a block of size 1). -/
def maxBlock : List Nat → Nat
  | [] => 0
  | x :: xs => blockGo x xs 1 1

/-- The target's sorted detection dates mapped to their calendar ranks.
When every detection date occurs in the calendar this is exactly the mapped
series that `count_max_consec_detects` differences. -/
def rankSeq (nd cal : List Nat) : List Nat :=
  (sortNat nd).filterMap (fun d => rankOf (sortNat cal) d)

/-- Spec-side formula for the nest x coordinate: mean of `match_xmin` plus
mean of `match_xmax`, halved, over all filtered detections of the target. -/
def specXMean (l : List Detection) : ℚ :=
  (meanOfList (l.map (·.match_xmin)) + meanOfList (l.map (·.match_xmax))) / 2

/-- Spec-side formula for the nest y coordinate. -/
def specYMean (l : List Detection) : ℚ :=
  (meanOfList (l.map (·.match_ymin)) + meanOfList (l.map (·.match_ymax))) / 2

/-- Test fixture: two detections of target 7 on adjacent survey dates, with
the bounding boxes of the spec's mean-of-means example. -/
def exampleTwoAdjacent : List Detection :=
  [⟨"JB", "2021", 1, 7, "GREG", 7/10, "b1", 0, 0, 10, 10⟩,
   ⟨"JB", "2021", 2, 7, "GREG", 6/10, "b2", 4, 4, 14, 14⟩]

/-- The nest row produced for `exampleTwoAdjacent` under the default
thresholds. -/
def exampleTwoAdjacentRow : NestRow :=
  ⟨7, "JB", "2021", 7, 7, 1, 2, 2, "GREG", 13/10, 2, "b1,b2"⟩

/-- Test fixture: one target with two labels; GREG has the larger summed
score (4/10 + 4/10 over WHIB's 5/10). -/
def exampleTwoLabels : List Detection :=
  [⟨"JB", "2021", 1, 2, "WHIB", 5/10, "b1", 0, 0, 2, 2⟩,
   ⟨"JB", "2021", 2, 2, "GREG", 4/10, "b2", 0, 0, 2, 2⟩,
   ⟨"JB", "2021", 3, 2, "GREG", 4/10, "b3", 0, 0, 2, 2⟩]

/-- The nest row produced for `exampleTwoLabels` under the default
thresholds. -/
def exampleTwoLabelsRow : NestRow :=
  ⟨2, "JB", "2021", 1, 1, 1, 3, 3, "GREG", 4/5, 2, "b1,b2,b3"⟩

/-- Test fixture: a single detection of target 4 whose score 1/10 is below
the default threshold 3/10, so the target has zero filtered detections. -/
def exampleLowScore : List Detection :=
  [⟨"JB", "2021", 1, 4, "GREG", 1/10, "b1", 0, 0, 1, 1⟩]

/-! ### Lemmas about the run-length scan -/

theorem goScan_ok (ds : List (Option Int)) :
    ∀ (prev : Option Int) (consec : Nat) (acc : List Nat),
    ∃ l, goScan prev ds consec acc = .ok l := by
  induction ds with
  | nil => intro prev consec acc; exact ⟨acc, rfl⟩
  | cons d rest ih =>
    intro prev consec acc
    by_cases hd : d = some 1 <;> by_cases hp : prev = some 1
    · by_cases hr : rest = []
      · exact ⟨acc ++ [consec + 1], by simp [goScan, hd, hp, hr]⟩
      · obtain ⟨l, hl⟩ := ih (some 1) (consec + 1) acc
        exact ⟨l, by simp [goScan, hd, hp, hr]; exact hl⟩
    · by_cases hr : rest = []
      · exact ⟨acc ++ [1], by simp [goScan, hd, hp, hr]⟩
      · obtain ⟨l, hl⟩ := ih (some 1) 1 acc
        exact ⟨l, by simp [goScan, hd, hp, hr]; exact hl⟩
    · obtain ⟨l, hl⟩ := ih d 0 (acc ++ [consec])
      exact ⟨l, by simp [goScan, hd, hp]; exact hl⟩
    · obtain ⟨l, hl⟩ := ih d consec acc
      exact ⟨l, by simp [goScan, hd, hp]; exact hl⟩

theorem goScan_step_incr (prev d : Option Int) (rest : List (Option Int))
    (consec : Nat) (acc : List Nat) (hd : d = some 1) (hp : prev = some 1)
    (hr : rest ≠ []) :
    goScan prev (d :: rest) consec acc = goScan d rest (consec + 1) acc := by
  simp [goScan, hd, hp, hr]

theorem goScan_step_new (prev d : Option Int) (rest : List (Option Int))
    (consec : Nat) (acc : List Nat) (hd : d = some 1) (hp : ¬prev = some 1)
    (hr : rest ≠ []) :
    goScan prev (d :: rest) consec acc = goScan d rest 1 acc := by
  simp [goScan, hd, hp, hr]

theorem foldMax_append (l : List Nat) (c : Nat) :
    foldMax (l ++ [c]) = max (foldMax l) c := by
  induction l with
  | nil =>
    simp only [foldMax, List.nil_append, List.foldr_cons, List.foldr_nil]
    simp only [Nat.max_def]
    split_ifs <;> omega
  | cons x xs ih =>
    simp only [foldMax, List.cons_append, List.foldr_cons] at ih ⊢
    rw [ih]
    simp only [Nat.max_def]
    split_ifs <;> omega

theorem mrGo_best (l : List Nat) :
    ∀ (p cur best : Nat), mrGo p l cur best = max best (mrGo p l cur 0) := by
  induction l with
  | nil =>
    intro p cur best
    simp only [mrGo, Nat.max_def]
    split_ifs <;> omega
  | cons y ys ih =>
    intro p cur best
    by_cases hy : y = p + 1
    · simp only [mrGo, if_pos hy]
      exact ih y (cur + 1) best
    · simp only [mrGo, if_neg hy]
      rw [ih y 0 (max cur best), ih y 0 (max cur 0)]
      simp only [Nat.max_def]
      split_ifs <;> omega

theorem goScan_diffTail (xs : List Nat) :
    ∀ (p : Nat) (prevd : Option Int) (c : Nat) (acc : List Nat),
    (prevd = some 1 → xs ≠ []) →
    ∃ L, goScan prevd (diffTail (some p) (xs.map some)) c acc = .ok L ∧
      foldMax L = max (foldMax acc) (mrGo p xs (if prevd = some 1 then c else 0) 0) := by
  induction xs with
  | nil =>
    intro p prevd c acc h
    refine ⟨acc, rfl, ?_⟩
    have hp : ¬prevd = some 1 := fun hh => (h hh) rfl
    simp [mrGo, hp, diffTail]
  | cons y ys ih =>
    intro p prevd c acc h
    have hd1 : ((some ((y : ℤ) - (p : ℤ)) : Option Int) = some 1) ↔ y = p + 1 := by
      constructor
      · intro hh; injection hh with hh; omega
      · intro hh; subst hh; congr 1; omega
    simp only [List.map_cons, diffTail]
    by_cases hy : y = p + 1 <;> by_cases hp : prevd = some 1
    · -- unit step, inside a run: increment branch
      have hde : (some ((y : ℤ) - (p : ℤ)) : Option Int) = some 1 := hd1.mpr hy
      rcases ys with _ | ⟨z, zs⟩
      · refine ⟨acc ++ [c + 1], ?_, ?_⟩
        · simp [goScan, hde, hp, diffTail]
        · rw [foldMax_append]
          simp [mrGo, hy, hp]
      · have hrest : diffTail (some y) ((z :: zs).map some) ≠ [] := by
          simp [diffTail]
        obtain ⟨L, hok, hfold⟩ := ih y (some 1) (c + 1) acc (fun _ => by simp)
        refine ⟨L, ?_, ?_⟩
        · rw [goScan_step_incr _ _ _ _ _ hde hp hrest, hde]
          exact hok
        · rw [hfold]
          simp [mrGo, hy, hp]
    · -- unit step, outside a run: new-run branch
      have hde : (some ((y : ℤ) - (p : ℤ)) : Option Int) = some 1 := hd1.mpr hy
      rcases ys with _ | ⟨z, zs⟩
      · refine ⟨acc ++ [1], ?_, ?_⟩
        · simp [goScan, hde, hp, diffTail]
        · rw [foldMax_append]
          simp [mrGo, hy, hp]
      · have hrest : diffTail (some y) ((z :: zs).map some) ≠ [] := by
          simp [diffTail]
        obtain ⟨L, hok, hfold⟩ := ih y (some 1) 1 acc (fun _ => by simp)
        refine ⟨L, ?_, ?_⟩
        · rw [goScan_step_new _ _ _ _ _ hde hp hrest, hde]
          exact hok
        · rw [hfold]
          simp [mrGo, hy, hp]
    · -- non-unit step, inside a run: store-and-reset branch
      have hde : ¬(some ((y : ℤ) - (p : ℤ)) : Option Int) = some 1 :=
        fun hh => hy (hd1.mp hh)
      obtain ⟨L, hok, hfold⟩ := ih y (some ((y : ℤ) - (p : ℤ))) 0 (acc ++ [c])
        (fun hh => absurd hh hde)
      refine ⟨L, ?_, ?_⟩
      · simp only [goScan, hde, hp]
        simpa using hok
      · rw [hfold, foldMax_append]
        simp only [if_neg hde, if_pos hp]
        rw [mrGo, if_neg hy, mrGo_best ys y 0 (max c 0)]
        simp only [Nat.max_def]
        split_ifs <;> omega
    · -- non-unit step, outside a run: no-op branch
      have hde : ¬(some ((y : ℤ) - (p : ℤ)) : Option Int) = some 1 :=
        fun hh => hy (hd1.mp hh)
      obtain ⟨L, hok, hfold⟩ := ih y (some ((y : ℤ) - (p : ℤ))) c acc
        (fun hh => absurd hh hde)
      refine ⟨L, ?_, ?_⟩
      · simp only [goScan, hde, hp]
        simpa using hok
      · rw [hfold]
        simp only [if_neg hde, if_neg hp]
        rw [mrGo, if_neg hy]
        simp

theorem blockGo_eq (l : List Nat) :
    ∀ (p c b : Nat), blockGo p l (c + 1) (b + 1) = max (b + 1) (mrGo p l c 0 + 1) := by
  induction l with
  | nil =>
    intro p c b
    simp only [blockGo, mrGo, Nat.max_def]
    split_ifs <;> omega
  | cons y ys ih =>
    intro p c b
    by_cases hy : y = p + 1
    · simp only [blockGo, mrGo, if_pos hy]
      exact ih y (c + 1) b
    · simp only [blockGo, mrGo, if_neg hy]
      have hmax : max (c + 1) (b + 1) = max c b + 1 := by
        simp only [Nat.max_def]; split_ifs <;> omega
      rw [hmax, ih y 0 (max c b), mrGo_best ys y 0 (max c 0)]
      simp only [Nat.max_def]
      split_ifs <;> omega

theorem maxBlock_cons_eq (x : Nat) (xs : List Nat) :
    maxBlock (x :: xs) = mr (x :: xs) + 1 := by
  have h := blockGo_eq xs x 0 0
  simp only [maxBlock, mr]
  rw [h]
  simp only [Nat.max_def]
  split_ifs <;> omega

/-! ### From dates and calendar to the rank sequence -/

theorem mem_insertSorted {a x : Nat} {l : List Nat} :
    a ∈ insertSorted x l ↔ a = x ∨ a ∈ l := by
  induction l with
  | nil => simp [insertSorted]
  | cons y ys ih =>
    simp only [insertSorted]
    split_ifs with hxy
    · simp
    · simp only [List.mem_cons, ih]
      tauto

theorem mem_sortNat {a : Nat} {l : List Nat} : a ∈ sortNat l ↔ a ∈ l := by
  induction l with
  | nil => simp [sortNat]
  | cons x xs ih =>
    simp only [sortNat, mem_insertSorted, ih, List.mem_cons]

theorem rankOf_isSome {cal : List Nat} {d : Nat} (h : d ∈ cal) :
    (rankOf cal d).isSome := by
  induction cal with
  | nil => simp at h
  | cons x xs ih =>
    simp only [rankOf]
    split_ifs with hx
    · simp
    · rcases List.mem_cons.mp h with h1 | h2
      · exact absurd h1.symm hx
      · simpa using ih h2

theorem map_eq_filterMap_some {α β : Type} (f : α → Option β) (l : List α)
    (h : ∀ x ∈ l, (f x).isSome) : l.map f = (l.filterMap f).map some := by
  induction l with
  | nil => simp
  | cons x xs ih =>
    obtain ⟨b, hb⟩ := Option.isSome_iff_exists.mp (h x (List.mem_cons_self x xs))
    simp only [List.map_cons, List.filterMap_cons, hb]
    rw [ih (fun y hy => h y (List.mem_cons_of_mem x hy))]

theorem count_eq_mr (nd cal : List Nat) (hmem : ∀ d ∈ nd, d ∈ cal) :
    countMaxConsecDetects nd [cal] = .ok (mr (rankSeq nd cal)) := by
  have hall : ∀ d ∈ sortNat nd, (rankOf (sortNat cal) d).isSome := by
    intro d hd
    exact rankOf_isSome (mem_sortNat.mpr (hmem d (mem_sortNat.mp hd)))
  have hmap : (sortNat nd).map (fun d => rankOf (sortNat cal) d)
      = (rankSeq nd cal).map some :=
    map_eq_filterMap_some _ _ hall
  simp only [countMaxConsecDetects]
  rw [hmap]
  rcases hrs : rankSeq nd cal with _ | ⟨r, rs⟩
  · simp [diffSeq, mr]
  · simp only [List.map_cons, diffSeq]
    obtain ⟨L, hok, hfold⟩ := goScan_diffTail rs r none 0 [] (by simp)
    rw [hok]
    simp only []
    rw [hfold]
    simp [mr, foldMax]

/-! ### Claim theorems about `count_max_consec_detects` -/

/-- C1 counterexample: for detection dates {d2, d3} against the 5-date calendar
d1..d5 the function returns 1, not 2 as the claim states — it counts adjacent
pairs, not the dates of the run. -/
theorem count_pair_example_not_two :
    countMaxConsecDetects [2, 3] [[1, 2, 3, 4, 5]] = .ok 1 ∧
    countMaxConsecDetects [2, 3] [[1, 2, 3, 4, 5]] ≠ .ok 2 := by
  refine ⟨rfl, fun h => ?_⟩
  rw [show countMaxConsecDetects [2, 3] [[1, 2, 3, 4, 5]] = .ok 1 from rfl] at h
  simp at h

/-- C1 (amended): `count_max_consec_detects` returns the number of adjacent
pairs in the longest consecutive run (one less than the number of dates):
for detection dates {d2, d3} against a 5-date calendar it returns 1, and for
detection dates at ranks {0,1,2,5,6} it returns 2. -/
theorem count_counts_adjacent_pairs_examples :
    countMaxConsecDetects [2, 3] [[1, 2, 3, 4, 5]] = .ok 1 ∧
    countMaxConsecDetects [0, 1, 2, 5, 6] [[0, 1, 2, 3, 4, 5, 6]] = .ok 2 :=
  ⟨rfl, rfl⟩

/-- C2: whenever no two of the target's detection dates are adjacent in the
survey calendar (every block of consecutive ranks has at most one date — this
covers a single detection date, dates at ranks {0,2,4}, and zero detection
dates), `count_max_consec_detects` returns 0. -/
theorem count_zero_when_no_adjacent (nd cal : List Nat)
    (hmem : ∀ d ∈ nd, d ∈ cal) (h1 : maxBlock (rankSeq nd cal) ≤ 1) :
    countMaxConsecDetects nd [cal] = .ok 0 := by
  rw [count_eq_mr nd cal hmem]
  rcases hrs : rankSeq nd cal with _ | ⟨r, rs⟩
  · rfl
  · rw [hrs] at h1
    have h2 := maxBlock_cons_eq r rs
    congr 1
    omega

/-- Witness for C2 at detection dates {10, 30, 50} (ranks {0, 2, 4}) in the
calendar {10, 20, 30, 40, 50}. -/
theorem count_zero_when_no_adjacent_witness :
    (∀ d ∈ [10, 30, 50], d ∈ [10, 20, 30, 40, 50]) ∧
    maxBlock (rankSeq [10, 30, 50] [10, 20, 30, 40, 50]) ≤ 1 ∧
    countMaxConsecDetects [10, 30, 50] [[10, 20, 30, 40, 50]] = .ok 0 :=
  ⟨by decide, by decide,
   count_zero_when_no_adjacent [10, 30, 50] [10, 20, 30, 40, 50]
     (by decide) (by decide)⟩

/-- C9: when the sorted detection-date ranks have a longest block of k ≥ 2
consecutive calendar positions, `count_max_consec_detects` returns k - 1:
it counts the adjacent pairs (unit rank differences) of the longest block,
not its dates. -/
theorem count_longest_block_minus_one (nd cal : List Nat) (k : Nat)
    (hmem : ∀ d ∈ nd, d ∈ cal) (hk : maxBlock (rankSeq nd cal) = k)
    (h2 : 2 ≤ k) :
    countMaxConsecDetects nd [cal] = .ok (k - 1) := by
  rw [count_eq_mr nd cal hmem]
  rcases hrs : rankSeq nd cal with _ | ⟨r, rs⟩
  · rw [hrs] at hk
    simp [maxBlock] at hk
    omega
  · rw [hrs] at hk
    have h3 := maxBlock_cons_eq r rs
    congr 1
    omega

/-- Witness for C9 at detection dates {20, 30, 40} (a block of 3 consecutive
ranks) in the calendar {10, 20, 30, 40, 50}: the function returns 2. -/
theorem count_longest_block_minus_one_witness :
    (∀ d ∈ [20, 30, 40], d ∈ [10, 20, 30, 40, 50]) ∧
    maxBlock (rankSeq [20, 30, 40] [10, 20, 30, 40, 50]) = 3 ∧ 2 ≤ 3 ∧
    countMaxConsecDetects [20, 30, 40] [[10, 20, 30, 40, 50]] = .ok 2 :=
  ⟨by decide, by decide, by decide,
   count_longest_block_minus_one [20, 30, 40] [10, 20, 30, 40, 50] 3
     (by decide) (by decide) (by decide)⟩

/-- C8: the defensive final else branch of the run-length scan (the only
error of `goScan`, embedding the source assertion) is unreachable: for every
difference sequence and state, one of the four explicit adjacency cases
applies and the scan returns a result list, never that error. -/
theorem scan_defensive_branch_unreachable (prev : Option Int)
    (ds : List (Option Int)) (consec : Nat) (acc : List Nat) :
    ∃ l, goScan prev ds consec acc = .ok l :=
  goScan_ok ds prev consec acc

/-- C4: `count_max_consec_detects` fails with the assertion message whenever
the survey-date table has more than one row, and succeeds (returns some
count) whenever it has exactly one row. -/
theorem count_single_calendar_row_contract (nd : List Nat)
    (rows : List (List Nat)) :
    (1 < rows.length →
      countMaxConsecDetects nd rows =
        .error "date_data should be a Pandas DataFrame with one row") ∧
    (rows.length = 1 → ∃ n, countMaxConsecDetects nd rows = .ok n) := by
  rcases rows with _ | ⟨r, _ | ⟨r2, rs⟩⟩
  · exact ⟨fun h => by simp at h, fun h => by simp at h⟩
  · refine ⟨fun h => by simp at h, fun _ => ?_⟩
    rcases hds : diffSeq ((sortNat nd).map (fun d => rankOf (sortNat r) d))
      with _ | ⟨d0, rest⟩
    · exact ⟨0, by simp [countMaxConsecDetects, hds]⟩
    · obtain ⟨l, hl⟩ := goScan_ok rest d0 0 []
      exact ⟨foldMax l, by simp [countMaxConsecDetects, hds, hl]⟩
  · exact ⟨fun _ => rfl, fun h => by simp at h⟩

/-- Witness for C4: two survey-date rows trigger the assertion error, one row
proceeds without it. -/
theorem count_single_calendar_row_contract_witness :
    countMaxConsecDetects [5] [[3], [4]] =
      .error "date_data should be a Pandas DataFrame with one row" ∧
    ∃ n, countMaxConsecDetects [5] [[5]] = .ok n :=
  ⟨(count_single_calendar_row_contract [5] [[3], [4]]).1 (by decide),
   (count_single_calendar_row_contract [5] [[5]]).2 (by decide)⟩

/-! ### Lemmas about `process_nests` -/

theorem processTarget_some_inv (dets : List Detection) (ms : ℚ) (md mc : Int)
    (t : Nat) (row : NestRow)
    (h : processTarget dets ms md mc t = .ok (some row)) :
    ∃ n m top d0 drest,
      countMaxConsecDetects ((filteredDetections dets ms t).map (·.date))
        (surveyDateRows dets) = .ok n ∧
      (md ≤ ((filteredDetections dets ms t).length : Int) ∨ mc ≤ (n : Int)) ∧
      maxOfList ((summedScores (filteredDetections dets ms t)).map (fun g => g.2.1))
        = .ok m ∧
      (summedScores (filteredDetections dets ms t)).find? (fun g => g.2.1 = m)
        = some top ∧
      filteredDetections dets ms t = d0 :: drest ∧
      row = ⟨t, d0.site, d0.year,
        (meanOfList ((filteredDetections dets ms t).map (·.match_xmin)) +
         meanOfList ((filteredDetections dets ms t).map (·.match_xmax))) / 2,
        (meanOfList ((filteredDetections dets ms t).map (·.match_ymin)) +
         meanOfList ((filteredDetections dets ms t).map (·.match_ymax))) / 2,
        (drest.map (·.date)).foldl Nat.min d0.date,
        (drest.map (·.date)).foldl Nat.max d0.date,
        (filteredDetections dets ms t).length, top.1, top.2.1, top.2.2,
        String.intercalate "," ((filteredDetections dets ms t).map (·.bird_id))⟩ := by
  simp only [processTarget] at h
  split at h
  · exact absurd h (by simp)
  · next n hc =>
    split at h
    · next hcond =>
      split at h
      · exact absurd h (by simp)
      · next m hm =>
        split at h
        · exact absurd h (by simp)
        · next top hfind =>
          split at h
          · exact absurd h (by simp)
          · next d0 drest hnd =>
            refine ⟨n, m, top, d0, drest, hc, hcond, hm, hfind, hnd, ?_⟩
            have := Except.ok.inj h
            have := Option.some.inj this
            exact this.symm
    · exact absurd h (by simp)

theorem processTarget_count_ok (dets : List Detection) (ms : ℚ) (md mc : Int)
    (t : Nat) (v : Option NestRow)
    (h : processTarget dets ms md mc t = .ok v) :
    ∃ n, countMaxConsecDetects ((filteredDetections dets ms t).map (·.date))
      (surveyDateRows dets) = .ok n := by
  simp only [processTarget] at h
  split at h
  · exact absurd h (by simp)
  · next n hc => exact ⟨n, hc⟩

theorem processTarget_nest_id (dets : List Detection) (ms : ℚ) (md mc : Int)
    (t : Nat) (row : NestRow)
    (h : processTarget dets ms md mc t = .ok (some row)) :
    row.nest_id = t := by
  obtain ⟨n, m, top, d0, drest, _, _, _, _, _, hrow⟩ :=
    processTarget_some_inv dets ms md mc t row h
  rw [hrow]

theorem processTarget_retained_not_none (dets : List Detection) (ms : ℚ)
    (md mc : Int) (t : Nat) (n : Nat)
    (hc : countMaxConsecDetects ((filteredDetections dets ms t).map (·.date))
      (surveyDateRows dets) = .ok n)
    (hcond : md ≤ ((filteredDetections dets ms t).length : Int) ∨ mc ≤ (n : Int)) :
    processTarget dets ms md mc t ≠ .ok none := by
  intro h
  simp only [processTarget] at h
  rw [hc] at h
  simp only [] at h
  rw [if_pos hcond] at h
  split at h
  · exact absurd h (by simp)
  · split at h
    · exact absurd h (by simp)
    · split at h
      · exact absurd h (by simp)
      · exact absurd h (by simp)

theorem loop_ok_mem (dets : List Detection) (ms : ℚ) (md mc : Int)
    (ts : List Nat) :
    ∀ (rows : List NestRow),
    processTargetsLoop dets ms md mc ts = .ok rows →
    ∀ row, row ∈ rows ↔
      ∃ t ∈ ts, processTarget dets ms md mc t = .ok (some row) := by
  induction ts with
  | nil =>
    intro rows h row
    have : rows = [] := (Except.ok.inj h).symm
    subst this
    simp
  | cons t ts ih =>
    intro rows h row
    simp only [processTargetsLoop] at h
    split at h
    · exact absurd h (by simp)
    · next hnone =>
      rw [ih rows h row]
      constructor
      · rintro ⟨t', ht', hpt⟩
        exact ⟨t', List.mem_cons_of_mem t ht', hpt⟩
      · rintro ⟨t', ht', hpt⟩
        rcases List.mem_cons.mp ht' with rfl | hmem
        · rw [hnone] at hpt
          exact absurd (Except.ok.inj hpt) (by simp)
        · exact ⟨t', hmem, hpt⟩
    · next r hsome =>
      split at h
      · exact absurd h (by simp)
      · next rest hrest =>
        have : rows = r :: rest := (Except.ok.inj h).symm
        subst this
        rw [List.mem_cons, ih rest hrest row]
        constructor
        · rintro (rfl | ⟨t', ht', hpt⟩)
          · exact ⟨t, List.mem_cons_self t ts, hsome⟩
          · exact ⟨t', List.mem_cons_of_mem t ht', hpt⟩
        · rintro ⟨t', ht', hpt⟩
          rcases List.mem_cons.mp ht' with rfl | hmem
          · rw [hsome] at hpt
            exact Or.inl (Option.some.inj (Except.ok.inj hpt)).symm
          · exact Or.inr ⟨t', hmem, hpt⟩

theorem loop_ok_all (dets : List Detection) (ms : ℚ) (md mc : Int)
    (ts : List Nat) :
    ∀ (rows : List NestRow),
    processTargetsLoop dets ms md mc ts = .ok rows →
    ∀ t ∈ ts, ∃ v, processTarget dets ms md mc t = .ok v := by
  induction ts with
  | nil => intro rows _ t ht; simp at ht
  | cons t0 ts ih =>
    intro rows h t ht
    simp only [processTargetsLoop] at h
    split at h
    · exact absurd h (by simp)
    · next hnone =>
      rcases List.mem_cons.mp ht with rfl | hmem
      · exact ⟨none, hnone⟩
      · exact ih rows h t hmem
    · next r hsome =>
      split at h
      · exact absurd h (by simp)
      · next rest hrest =>
        rcases List.mem_cons.mp ht with rfl | hmem
        · exact ⟨some r, hsome⟩
        · exact ih rest hrest t hmem

theorem processNests_ok_rows (dets : List Detection) (ms : ℚ) (md mc : Int)
    (out : NestOutput) (h : processNests dets ms md mc = .ok out) :
    processTargetsLoop dets ms md mc (targetInds dets) = .ok out.rows := by
  simp only [processNests] at h
  split at h
  · exact absurd h (by simp)
  · next rows hrows =>
    split at h
    · next hnil =>
      have : out = ⟨schemaColumns, []⟩ := (Except.ok.inj h).symm
      subst this
      rw [hrows, hnil]
    · have : out = ⟨nestColumns, rows⟩ := (Except.ok.inj h).symm
      subst this
      exact hrows

/-- C3: given a successful run of `process_nests`, a target contributes an
output row exactly when its score-filtered detection count reaches
`min_detections` or its consecutive-run value reaches `min_consec_detects`
(logical OR). -/
theorem process_nests_retention_iff (dets : List Detection) (ms : ℚ)
    (md mc : Int) (out : NestOutput) (t : Nat)
    (hout : processNests dets ms md mc = .ok out) (ht : t ∈ targetInds dets) :
    (∃ row ∈ out.rows, row.nest_id = t) ↔
    (md ≤ ((filteredDetections dets ms t).length : Int) ∨
     ∃ n, countMaxConsecDetects ((filteredDetections dets ms t).map (·.date))
        (surveyDateRows dets) = .ok n ∧ mc ≤ (n : Int)) := by
  have hloop := processNests_ok_rows dets ms md mc out hout
  have hmem := loop_ok_mem dets ms md mc (targetInds dets) out.rows hloop
  constructor
  · rintro ⟨row, hrow, hid⟩
    obtain ⟨t', ht', hpt⟩ := (hmem row).mp hrow
    have hid' : row.nest_id = t' := processTarget_nest_id dets ms md mc t' row hpt
    have htt : t' = t := by rw [← hid, hid']
    subst htt
    obtain ⟨n, m, top, d0, drest, hc, hcond, _, _, _, _⟩ :=
      processTarget_some_inv dets ms md mc t' row hpt
    rcases hcond with hmd | hmc
    · exact Or.inl hmd
    · exact Or.inr ⟨n, hc, hmc⟩
  · intro hrhs
    obtain ⟨v, hv⟩ := loop_ok_all dets ms md mc (targetInds dets) out.rows hloop t ht
    obtain ⟨n0, hc0⟩ := processTarget_count_ok dets ms md mc t v hv
    have hcond : md ≤ ((filteredDetections dets ms t).length : Int) ∨
        mc ≤ (n0 : Int) := by
      rcases hrhs with hmd | ⟨n, hc, hmc⟩
      · exact Or.inl hmd
      · have : n = n0 := Except.ok.inj (hc ▸ hc0)
        exact Or.inr (this ▸ hmc)
    have hne := processTarget_retained_not_none dets ms md mc t n0 hc0 hcond
    rcases v with _ | row
    · exact absurd hv hne
    · exact ⟨row, (hmem row).mpr ⟨t, ht, hv⟩,
        processTarget_nest_id dets ms md mc t row hv⟩

theorem le_foldl_max (xs : List ℚ) : ∀ a : ℚ, a ≤ xs.foldl max a := by
  induction xs with
  | nil => intro a; simp
  | cons x xs ih =>
    intro a
    exact le_trans (le_max_left a x) (ih (max a x))

theorem mem_le_foldl_max (xs : List ℚ) :
    ∀ (a x : ℚ), x ∈ xs → x ≤ xs.foldl max a := by
  induction xs with
  | nil => intro a x hx; simp at hx
  | cons y ys ih =>
    intro a x hx
    rcases List.mem_cons.mp hx with rfl | hmem
    · exact le_trans (le_max_right a x) (le_foldl_max ys (max a x))
    · exact ih (max a y) x hmem

theorem maxOfList_le (l : List ℚ) (m : ℚ) (h : maxOfList l = .ok m) :
    ∀ x ∈ l, x ≤ m := by
  rcases l with _ | ⟨y, ys⟩
  · intro x hx; simp at hx
  · have hm : m = ys.foldl max y := (Except.ok.inj h).symm
    subst hm
    intro x hx
    rcases List.mem_cons.mp hx with rfl | hmem
    · exact le_foldl_max ys x
    · exact mem_le_foldl_max ys y x hmem

/-- C5: the emitted coordinates are mean-of-means over ALL score-filtered
detections of the target: `xmean = (mean match_xmin + mean match_xmax) / 2`
and likewise for `ymean`, not restricted to the winning-label subset. -/
theorem nest_mean_of_means (dets : List Detection) (ms : ℚ) (md mc : Int)
    (t : Nat) (row : NestRow)
    (h : processTarget dets ms md mc t = .ok (some row)) :
    row.xmean = specXMean (filteredDetections dets ms t) ∧
    row.ymean = specYMean (filteredDetections dets ms t) := by
  obtain ⟨n, m, top, d0, drest, _, _, _, _, _, hrow⟩ :=
    processTarget_some_inv dets ms md mc t row h
  rw [hrow]
  exact ⟨rfl, rfl⟩

/-- C6: the emitted species carries a maximal summed score among the target's
per-label score sums over the filtered detections, and `sum_top1`/`num_top1`
are exactly that label's summed score and detection count. -/
theorem nest_species_max_summed_score (dets : List Detection) (ms : ℚ)
    (md mc : Int) (t : Nat) (row : NestRow)
    (h : processTarget dets ms md mc t = .ok (some row)) :
    ∃ g ∈ summedScores (filteredDetections dets ms t),
      row.species = g.1 ∧ row.sum_top1 = g.2.1 ∧ row.num_top1 = g.2.2 ∧
      ∀ g' ∈ summedScores (filteredDetections dets ms t), g'.2.1 ≤ g.2.1 := by
  obtain ⟨n, m, top, d0, drest, hc, hcond, hm, hfind, hnd, hrow⟩ :=
    processTarget_some_inv dets ms md mc t row h
  have htopm : top.2.1 = m := by
    have := List.find?_some hfind
    exact of_decide_eq_true this
  refine ⟨top, List.mem_of_find?_eq_some hfind, ?_, ?_, ?_, ?_⟩
  · rw [hrow]
  · rw [hrow]
  · rw [hrow]
  · intro g' hg'
    have hle : g'.2.1 ≤ m :=
      maxOfList_le _ m hm g'.2.1 (List.mem_map.mpr ⟨g', hg', rfl⟩)
    rw [htopm]
    exact hle

theorem loop_all_none (dets : List Detection) (ms : ℚ) (md mc : Int)
    (ts : List Nat)
    (h : ∀ t ∈ ts, processTarget dets ms md mc t = .ok none) :
    processTargetsLoop dets ms md mc ts = .ok [] := by
  induction ts with
  | nil => rfl
  | cons t ts ih =>
    have ht := h t (List.mem_cons_self t ts)
    have hrest := ih (fun t' ht' => h t' (List.mem_cons_of_mem t ht'))
    simp only [processTargetsLoop]
    rw [ht]
    exact hrest

/-- C7: when every target is dropped by the retention rule, `process_nests`
still writes an output declaring exactly the 12 fixed nest columns and zero
rows, instead of raising or skipping the write. -/
theorem process_nests_empty_schema (dets : List Detection) (ms : ℚ)
    (md mc : Int)
    (h : ∀ t ∈ targetInds dets, processTarget dets ms md mc t = .ok none) :
    processNests dets ms md mc = .ok ⟨schemaColumns, []⟩ ∧
    schemaColumns = ["nest_id", "Site", "Year", "xmean", "ymean", "first_obs",
      "last_obs", "num_obs", "species", "sum_top1", "num_top1", "bird_match"] ∧
    schemaColumns.length = 12 := by
  refine ⟨?_, rfl, rfl⟩
  have hloop := loop_all_none dets ms md mc (targetInds dets) h
  simp [processNests, hloop]

/-- C10: with `min_consec_detects ≤ 0`, a target with zero score-filtered
detections passes the retention check (run value 0), and the aggregation then
fails with the empty-max error instead of emitting a row or skipping. -/
theorem zero_detection_target_errors (dets : List Detection) (ms : ℚ)
    (md mc : Int) (t : Nat)
    (hmc : mc ≤ 0) (hemp : filteredDetections dets ms t = [])
    (hone : (surveyDateRows dets).length = 1) :
    processTarget dets ms md mc t = .error "max() arg is an empty sequence" := by
  obtain ⟨r, hr⟩ := List.length_eq_one.mp hone
  simp only [processTarget, hemp, hr]
  rw [show countMaxConsecDetects (([] : List Detection).map (·.date)) [r]
      = .ok 0 from rfl]
  simp only []
  rw [if_pos (Or.inr (by exact_mod_cast hmc))]
  rfl

/-! ### Concrete evaluations of the fixtures -/

theorem exampleTwoAdjacent_eval :
    processTarget exampleTwoAdjacent (3/10) 3 1 7
      = .ok (some exampleTwoAdjacentRow) := by
  norm_num [exampleTwoAdjacent, exampleTwoAdjacentRow, processTarget,
    filteredDetections, surveyDateRows, uniqueList, summedScores, maxOfList,
    countMaxConsecDetects, sortNat, insertSorted, rankOf, diffSeq, diffTail,
    goScan, foldMax, meanOfList, List.filter, List.foldl, List.filterMap,
    List.find?]
  simp +decide [foldMax]

theorem exampleTwoAdjacent_filtered :
    filteredDetections exampleTwoAdjacent (3/10) 7 = exampleTwoAdjacent := by
  norm_num [exampleTwoAdjacent, filteredDetections, List.filter]

theorem exampleTwoAdjacent_nests :
    processNests exampleTwoAdjacent (3/10) 3 1
      = .ok ⟨nestColumns, [exampleTwoAdjacentRow]⟩ := by
  have h1 : targetInds exampleTwoAdjacent = [7] := rfl
  simp [processNests, processTargetsLoop, h1, exampleTwoAdjacent_eval]

theorem exampleTwoAdjacent_count :
    countMaxConsecDetects
      ((filteredDetections exampleTwoAdjacent (3/10) 7).map (·.date))
      (surveyDateRows exampleTwoAdjacent) = .ok 1 := by
  rw [exampleTwoAdjacent_filtered]
  rfl

theorem exampleTwoLabels_filtered :
    filteredDetections exampleTwoLabels (3/10) 2 = exampleTwoLabels := by
  norm_num [exampleTwoLabels, filteredDetections, List.filter]

theorem exampleTwoLabels_sums :
    summedScores exampleTwoLabels
      = [("WHIB", (1:ℚ)/2, 1), ("GREG", (4:ℚ)/5, 2)] := by
  norm_num [exampleTwoLabels, summedScores, uniqueList, List.filter]
  simp +decide
  norm_num

theorem exampleTwoLabels_eval :
    processTarget exampleTwoLabels (3/10) 3 1 2
      = .ok (some exampleTwoLabelsRow) := by
  have hcnt : countMaxConsecDetects (exampleTwoLabels.map (·.date))
      (surveyDateRows exampleTwoLabels) = .ok 2 := rfl
  have hmax : maxOfList ([("WHIB", (1:ℚ)/2, 1), ("GREG", (4:ℚ)/5, 2)].map
      (fun g => g.2.1)) = .ok ((4:ℚ)/5) := by
    simp only [List.map_cons, List.map_nil, maxOfList, List.foldl_cons,
      List.foldl_nil]
    rw [max_eq_right (by norm_num : (1:ℚ)/2 ≤ 4/5)]
  have hfind : List.find? (fun g => g.2.1 = (4:ℚ)/5)
      [("WHIB", (1:ℚ)/2, 1), ("GREG", (4:ℚ)/5, 2)]
      = some ("GREG", (4:ℚ)/5, 2) := by
    rw [List.find?_cons_of_neg, List.find?_cons_of_pos]
    · simp
    · simp only [decide_eq_true_eq]
      norm_num
  simp only [processTarget, exampleTwoLabels_filtered, hcnt]
  simp only [exampleTwoLabels_sums, hmax, hfind]
  rw [if_pos (Or.inr (by norm_num))]
  simp only [exampleTwoLabels]
  norm_num [exampleTwoLabelsRow, meanOfList]
  simp +decide

theorem exampleLowScore_dropped :
    processTarget exampleLowScore (3/10) 3 1 4 = .ok none := by
  norm_num [exampleLowScore, processTarget, filteredDetections, surveyDateRows,
    uniqueList, countMaxConsecDetects, sortNat, insertSorted, rankOf, diffSeq,
    diffTail, goScan, foldMax, List.filter, List.foldl, List.filterMap]

theorem exampleLowScore_filtered :
    filteredDetections exampleLowScore (3/10) 4 = [] := by
  norm_num [exampleLowScore, filteredDetections, List.filter]

/-! ### Witnesses for the process-level claims -/

/-- Witness for C3: under the defaults, the target with 2 filtered detections
on adjacent survey dates (run value 1 ≥ `min_consec_detects` = 1 although
2 < `min_detections` = 3) contributes a row. -/
theorem process_nests_retention_iff_witness :
    processNests exampleTwoAdjacent (3/10) 3 1
      = .ok ⟨nestColumns, [exampleTwoAdjacentRow]⟩ ∧
    7 ∈ targetInds exampleTwoAdjacent ∧
    (∃ row ∈ (⟨nestColumns, [exampleTwoAdjacentRow]⟩ : NestOutput).rows,
      row.nest_id = 7) := by
  refine ⟨exampleTwoAdjacent_nests, by decide, ?_⟩
  exact (process_nests_retention_iff exampleTwoAdjacent (3/10) 3 1
      ⟨nestColumns, [exampleTwoAdjacentRow]⟩ 7 exampleTwoAdjacent_nests
      (by decide)).mpr
    (Or.inr ⟨1, exampleTwoAdjacent_count, by decide⟩)

/-- Witness for C5 at the spec's example boxes (0,0,10,10) and (4,4,14,14):
the emitted coordinates are 7 and agree with the mean-of-means formula. -/
theorem nest_mean_of_means_witness :
    processTarget exampleTwoAdjacent (3/10) 3 1 7
      = .ok (some exampleTwoAdjacentRow) ∧
    exampleTwoAdjacentRow.xmean = 7 ∧ exampleTwoAdjacentRow.ymean = 7 ∧
    specXMean (filteredDetections exampleTwoAdjacent (3/10) 7) = 7 ∧
    specYMean (filteredDetections exampleTwoAdjacent (3/10) 7) = 7 := by
  have h := nest_mean_of_means exampleTwoAdjacent (3/10) 3 1 7
    exampleTwoAdjacentRow exampleTwoAdjacent_eval
  refine ⟨exampleTwoAdjacent_eval, rfl, rfl, ?_, ?_⟩
  · rw [← h.1]; rfl
  · rw [← h.2]; rfl

/-- Witness for C6: with labels WHIB (summed score 1/2) and GREG (summed
score 4/5), the emitted species GREG carries the maximal summed score, with
`sum_top1` = 4/5 and `num_top1` = 2. -/
theorem nest_species_max_summed_score_witness :
    processTarget exampleTwoLabels (3/10) 3 1 2
      = .ok (some exampleTwoLabelsRow) ∧
    ∃ g ∈ summedScores (filteredDetections exampleTwoLabels (3/10) 2),
      exampleTwoLabelsRow.species = g.1 ∧
      exampleTwoLabelsRow.sum_top1 = g.2.1 ∧
      exampleTwoLabelsRow.num_top1 = g.2.2 ∧
      ∀ g' ∈ summedScores (filteredDetections exampleTwoLabels (3/10) 2),
        g'.2.1 ≤ g.2.1 :=
  ⟨exampleTwoLabels_eval,
   nest_species_max_summed_score exampleTwoLabels (3/10) 3 1 2
     exampleTwoLabelsRow exampleTwoLabels_eval⟩

/-- Witness for C7: with a single below-threshold detection every target is
dropped, yet the output declares the 12 schema columns with zero rows. -/
theorem process_nests_empty_schema_witness :
    (∀ t ∈ targetInds exampleLowScore,
      processTarget exampleLowScore (3/10) 3 1 t = .ok none) ∧
    processNests exampleLowScore (3/10) 3 1 = .ok ⟨schemaColumns, []⟩ ∧
    schemaColumns.length = 12 := by
  have hall : ∀ t ∈ targetInds exampleLowScore,
      processTarget exampleLowScore (3/10) 3 1 t = .ok none := by
    intro t ht
    have ht4 : t = 4 := by
      rw [show targetInds exampleLowScore = [4] from rfl] at ht
      simpa using ht
    subst ht4
    exact exampleLowScore_dropped
  exact ⟨hall, (process_nests_empty_schema exampleLowScore (3/10) 3 1 hall).1,
    (process_nests_empty_schema exampleLowScore (3/10) 3 1 hall).2.2⟩

/-- Witness for C10: `min_consec_detects` = 0 with a target of zero filtered
detections makes the aggregation raise the empty-max error. -/
theorem zero_detection_target_errors_witness :
    (0 : Int) ≤ 0 ∧ filteredDetections exampleLowScore (3/10) 4 = [] ∧
    (surveyDateRows exampleLowScore).length = 1 ∧
    processTarget exampleLowScore (3/10) 3 0 4
      = .error "max() arg is an empty sequence" :=
  ⟨by decide, exampleLowScore_filtered, by decide,
   zero_detection_target_errors exampleLowScore (3/10) 3 0 4 (by decide)
     exampleLowScore_filtered (by decide)⟩
